import Mathlib

set_option linter.unnecessarySeqFocus false

/-!
Shallow embedding of the simulation engine of `mytrader`
(`src/strategy.py`, `src/backtest.py`).

Modelling conventions:
* dates are integer day numbers (`ℤ`); `(exit_date - entry_date).days` becomes
  integer subtraction;
* prices, volumes and returns are rationals (`ℚ`);
* fills are instantaneous at the current bar's close, as the spec's position
  model states (`order_target_percent` bookkeeping: `last_buy_price` /
  `last_buy_date` are set on entry and cleared on exit, and the broker position
  is non-zero exactly when `last_buy_price` is set);
* per-instrument signals (`per_data_signal`) and rotation scores (`_roc`) are
  inputs of each bar: the bookkeeping in `BaseMultiDataStrategy.next/stop` and
  `MidCapRotationStrategy.next/stop` is parametric in them, which models
  "for every strategy";
* the `Books.opened` field is a ghost counter: it counts position openings and
  changes nothing else, so that "every opened position yields exactly one
  trade record" can be stated as a count equality.
-/

/-- One row of `trade_records` (the dict appended in `strategy.py`); the
broker fill quantity `size` is outside this bookkeeping model and omitted. -/
structure TradeRecord where
  symbol : ℕ
  entry_date : ℤ
  exit_date : ℤ
  entry_price : ℚ
  exit_price : ℚ
  pnl_pct : ℚ
  holding_days : ℤ
  deriving DecidableEq, Repr

/-- The shared counters of `BaseMultiDataStrategy` / `MidCapRotationStrategy`:
`self.trades`, `self.wins`, `self.trade_records`, plus the ghost counter
`opened` of position openings. -/
structure Books where
  trades : ℕ
  wins : ℕ
  records : List TradeRecord
  opened : ℕ
  deriving DecidableEq, Repr

/-- Full engine state: per-instrument `last_buy_price`/`last_buy_date`
(`none` = flat) plus the counters. -/
structure EngineState where
  entry : List (Option (ℚ × ℤ))
  books : Books
  deriving DecidableEq, Repr

/-- The trade-record dict built at every close site in `strategy.py`:
`pnl_pct = (exit-entry)/entry if entry else 0`, and
`holding_days = (exit_date - entry_date).days`. -/
def mkRecord (sym : ℕ) (entryP : ℚ) (entryD : ℤ) (exitP : ℚ) (exitD : ℤ) :
    TradeRecord :=
  { symbol := sym
    entry_date := entryD
    exit_date := exitD
    entry_price := entryP
    exit_price := exitP
    pnl_pct := if entryP ≠ 0 then (exitP - entryP) / entryP else 0
    holding_days := exitD - entryD }

/-- Closing an open position: `self.trades += 1`, a win iff the exit close is
strictly greater than the recorded entry price, and one appended record. -/
def closePos (bk : Books) (sym : ℕ) (entryP : ℚ) (entryD : ℤ)
    (exitP : ℚ) (exitD : ℤ) : Books :=
  { trades := bk.trades + 1
    wins := if exitP > entryP then bk.wins + 1 else bk.wins
    records := bk.records ++ [mkRecord sym entryP entryD exitP exitD]
    opened := bk.opened }

/-- Initial state of a run over `n` instruments. -/
def initState (n : ℕ) : EngineState :=
  { entry := List.replicate n none
    books := { trades := 0, wins := 0, records := [], opened := 0 } }

/-- Generic per-instrument loop: every loop of `next`/`stop` walks the
instrument list in lockstep with the entry table, updating each instrument's
entry slot and the shared books. -/
def scanInstr (f : ℕ → α → Option (ℚ × ℤ) → Books → Option (ℚ × ℤ) × Books)
    (sym : ℕ) : List α → List (Option (ℚ × ℤ)) → Books →
    List (Option (ℚ × ℤ)) × Books
  | [], es, bk => (es, bk)
  | _, [], bk => ([], bk)
  | b :: bs, e :: es, bk =>
    let r := f sym b e bk
    let rest := scanInstr f (sym + 1) bs es r.2
    (r.1 :: rest.1, rest.2)

/-- One instrument of the forced closure in `stop` (both strategy families):
a still-open position (`last_buy_price is not None`) is recorded at the
final bar's close `c`, once; the entry slot is not touched afterwards. -/
def stopStep (d : ℤ) (sym : ℕ) (c : ℚ) (e : Option (ℚ × ℤ)) (bk : Books) :
    Option (ℚ × ℤ) × Books :=
  match e with
  | some (ep, ed) => (e, closePos bk sym ep ed c d)
  | none => (e, bk)

/-- The `stop` loop over all instruments' final closes. -/
def stopAux (d : ℤ) (closes : List ℚ) (es : List (Option (ℚ × ℤ)))
    (bk : Books) : Books :=
  (scanInstr (stopStep d) 0 closes es bk).2

/-! ### Base strategy family (`BaseMultiDataStrategy`) -/

/-- Per-instrument data of one bar for the base family: the close and the
`per_data_signal` output `(buy_signal, sell_signal, volume_ok)`. -/
structure InstrBar where
  close : ℚ
  buy : Bool
  sell : Bool
  volOk : Bool
  deriving DecidableEq, Repr

/-- One lockstep bar across all instruments. -/
structure BaseBar where
  date : ℤ
  instrs : List InstrBar
  deriving DecidableEq, Repr

/-- The body of the per-instrument loop of `BaseMultiDataStrategy.next`:
open when flat and `buy_sig and vol_ok`, close when holding and `sell_sig`. -/
def baseInstrStep (d : ℤ) (sym : ℕ) (b : InstrBar)
    (e : Option (ℚ × ℤ)) (bk : Books) : Option (ℚ × ℤ) × Books :=
  match e with
  | none =>
    if b.buy && b.volOk then
      (some (b.close, d), { bk with opened := bk.opened + 1 })
    else (none, bk)
  | some (ep, ed) =>
    if b.sell then (none, closePos bk sym ep ed b.close d)
    else (some (ep, ed), bk)

/-- One bar of `BaseMultiDataStrategy.next`: the
`for i, d in enumerate(self.datas)` loop (the `pos_history` snapshot is
diagnostic only and not modelled). -/
def baseNext (bar : BaseBar) (st : EngineState) : EngineState :=
  let r := scanInstr (baseInstrStep bar.date) 0 bar.instrs st.entry st.books
  { entry := r.1, books := r.2 }

/-- The bar-by-bar traversal of a run. -/
def baseRun (bars : List BaseBar) (st : EngineState) : EngineState :=
  bars.foldl (fun s b => baseNext b s) st

/-- A complete run of a base-family strategy: all bars, then `stop` at the
final bar (forced closure at the final bar's close). -/
def baseSim (n : ℕ) (bars : List BaseBar) : EngineState :=
  let fin := baseRun bars (initState n)
  match bars.getLast? with
  | none => fin
  | some lb =>
    { fin with books := stopAux lb.date (lb.instrs.map (·.close)) fin.entry fin.books }

/-! ### Rotation strategy (`MidCapRotationStrategy`) -/

/-- The parameter block of `MidCapRotationStrategy` (the `roc_period` only
feeds the score computation, which enters each bar as data). -/
structure RotParams where
  buy_conditions : List ℚ
  buy_at_least_count : ℕ
  sell_conditions_low : List ℚ
  sell_conditions_high : List ℚ
  sell_at_least_count : ℕ
  topK : ℕ
  dropN : ℕ
  rebalance_days : ℕ
  deriving DecidableEq, Repr

/-- Defaults of `MidCapRotationStrategy.params`. -/
def defaultRotParams : RotParams :=
  { buy_conditions := [5/100]
    buy_at_least_count := 1
    sell_conditions_low := [-6/100]
    sell_conditions_high := [20/100]
    sell_at_least_count := 1
    topK := 2
    dropN := 0
    rebalance_days := 1 }

/-- Per-instrument data of one rotation bar: the close and the `_roc` score
(`none` when fewer than `roc_period+1` bars exist or the denominator is 0). -/
structure RotInstr where
  close : ℚ
  roc : Option ℚ
  deriving DecidableEq, Repr

/-- One lockstep bar for the rotation strategy. -/
structure RotBar where
  date : ℤ
  instrs : List RotInstr
  deriving DecidableEq, Repr

/-- The `_roc` score of `MidCapRotationStrategy` over a newest-first close
history: `close[0]/close[-period] - 1`, `none` on short history or zero
denominator. -/
def rocScore (closes : List ℚ) (period : ℕ) : Option ℚ :=
  if closes.length ≤ period then none
  else
    match closes.get? period, closes.get? 0 with
    | some prev, some cur => if prev = 0 then none else some (cur / prev - 1)
    | _, _ => none

/-- The sell-hit count: the low-threshold loop and the high-threshold loop
each `break` after the first hit, so each contributes at most 1. -/
def sellHits (p : RotParams) (r : ℚ) : ℕ :=
  (if p.sell_conditions_low.any (fun thr => decide (r < thr)) then 1 else 0) +
  (if p.sell_conditions_high.any (fun thr => decide (r > thr)) then 1 else 0)

/-- The buy-hit count: `sum(1 for cond in buy_conditions if roc_val > cond)`. -/
def buyHits (p : RotParams) (r : ℚ) : ℕ :=
  (p.buy_conditions.filter (fun c => decide (r > c))).length

/-- The `roc_map` of one bar, in instrument iteration order, with indices. -/
def rocList (instrs : List RotInstr) : List (ℕ × ℚ) :=
  instrs.enum.filterMap (fun x => x.2.roc.map (fun r => (x.1, r)))

/-- The buy-candidate list: instruments whose score meets at least
`buy_at_least_count` buy thresholds. -/
def eligible (p : RotParams) (instrs : List RotInstr) : List (ℕ × ℚ) :=
  (rocList instrs).filter (fun x => decide (buyHits p x.2 ≥ p.buy_at_least_count))

/-- The comparison used by `candidates.sort(key=score, reverse=True)`:
a stable descending sort by score. -/
def scoreGE (a b : ℕ × ℚ) : Bool := decide (a.2 ≥ b.2)

/-- The candidate list after the stable descending sort. -/
def sortedCandidates (p : RotParams) (instrs : List RotInstr) : List (ℕ × ℚ) :=
  (eligible p instrs).mergeSort scoreGE

/-- The target set of a rebalance day: drop the first `dropN` (the code
guards `if dropN > 0`, a no-op for `dropN = 0`), then take `topK`. -/
def targetList (p : RotParams) (instrs : List RotInstr) : List ℕ :=
  (((if p.dropN > 0 then (sortedCandidates p instrs).drop p.dropN
     else sortedCandidates p instrs)).take p.topK).map Prod.fst

/-- One instrument of phase 1 of `MidCapRotationStrategy.next`, run on every
bar before the rebalance gate: a held instrument whose score meets
`sell_at_least_count` exit thresholds is closed at this bar's close. -/
def rotSellStep (p : RotParams) (d : ℤ) (sym : ℕ) (b : RotInstr)
    (e : Option (ℚ × ℤ)) (bk : Books) : Option (ℚ × ℤ) × Books :=
  match e with
  | some (ep, ed) =>
    match b.roc with
    | some rv =>
      if sellHits p rv ≥ p.sell_at_least_count then
        (none, closePos bk sym ep ed b.close d)
      else (some (ep, ed), bk)
    | none => (some (ep, ed), bk)
  | none => (none, bk)

/-- One instrument of the reconciliation closing leg: a held instrument not
in the target set is closed at this bar's close. -/
def rotRebalCloseStep (d : ℤ) (target : List ℕ) (sym : ℕ) (b : RotInstr)
    (e : Option (ℚ × ℤ)) (bk : Books) : Option (ℚ × ℤ) × Books :=
  match e with
  | some (ep, ed) =>
    if sym ∈ target then (some (ep, ed), bk)
    else (none, closePos bk sym ep ed b.close d)
  | none => (none, bk)

/-- One instrument of the reconciliation opening leg: a target instrument
with no position is opened at this bar's close (the equal weight
`1/len(target)` has no effect on the bookkeeping and is not tracked). -/
def rotRebalOpenStep (d : ℤ) (target : List ℕ) (sym : ℕ) (b : RotInstr)
    (e : Option (ℚ × ℤ)) (bk : Books) : Option (ℚ × ℤ) × Books :=
  match e with
  | none =>
    if sym ∈ target then
      (some (b.close, d), { bk with opened := bk.opened + 1 })
    else (none, bk)
  | some (ep, ed) => (some (ep, ed), bk)

/-- One bar of `MidCapRotationStrategy.next`; `counter` is `self.day_counter`
after the increment at the top of `next`. The score-based exit check runs
unconditionally; selection and reconciliation only behind
`day_counter % rebalance_days == 0 and roc_map`. -/
def rotNext (p : RotParams) (counter : ℕ) (bar : RotBar)
    (st : EngineState) : EngineState :=
  let s1 := scanInstr (rotSellStep p bar.date) 0 bar.instrs st.entry st.books
  if counter % p.rebalance_days = 0 ∧ rocList bar.instrs ≠ [] then
    let tgt := targetList p bar.instrs
    let s2 := scanInstr (rotRebalCloseStep bar.date tgt) 0 bar.instrs s1.1 s1.2
    let s3 := scanInstr (rotRebalOpenStep bar.date tgt) 0 bar.instrs s2.1 s2.2
    { entry := s3.1, books := s3.2 }
  else { entry := s1.1, books := s1.2 }

/-- The bar-by-bar rotation traversal; `self.day_counter` starts at 0 and is
incremented at the top of each `next`. -/
def rotRun (p : RotParams) : ℕ → List RotBar → EngineState → EngineState
  | _, [], st => st
  | c, b :: bs, st => rotRun p (c + 1) bs (rotNext p (c + 1) b st)

/-- A complete rotation run: all bars, then `stop` (forced closure of
remaining positions at the final bar's close, dated by the reference
stream's final bar). -/
def rotSim (p : RotParams) (n : ℕ) (bars : List RotBar) : EngineState :=
  let fin := rotRun p 0 bars (initState n)
  match bars.getLast? with
  | none => fin
  | some lb =>
    { fin with books := stopAux lb.date (lb.instrs.map (·.close)) fin.entry fin.books }

/-! ### Strategy registry and run setup (`backtest.py` lines 26-29) -/

/-- The strategy classes registered in `STRATEGY_MAP`. -/
inductive StrategyKind where
  | macdVolume
  | smaCrossVolume
  | volumeSurgeUp
  | tarmacPlatform
  | midCapRotation
  deriving DecidableEq, Repr

/-- The registry `STRATEGY_MAP`, in insertion order (the rotation strategy is
added after the class definitions). -/
def STRATEGY_MAP : List (String × StrategyKind) :=
  [("MACD成交量", StrategyKind.macdVolume),
   ("均线交叉成交量", StrategyKind.smaCrossVolume),
   ("放量上涨", StrategyKind.volumeSurgeUp),
   ("停机坪", StrategyKind.tarmacPlatform),
   ("中规模轮动", StrategyKind.midCapRotation)]

/-- The default strategy name. -/
def DEFAULT_STRATEGY_NAME : String := "MACD成交量"

/-- The strategy selection of `run_backtest`: `None` becomes the default
name, then `STRATEGY_MAP.get(strategy_name, STRATEGY_MAP[DEFAULT])` — a total
lookup whose fallback is the default class (the inner `getD` mirrors the
eager `STRATEGY_MAP[DEFAULT_STRATEGY_NAME]` index, which is present). -/
def selectStrategyCls (name : Option String) : StrategyKind :=
  (STRATEGY_MAP.lookup (name.getD DEFAULT_STRATEGY_NAME)).getD
    ((STRATEGY_MAP.lookup DEFAULT_STRATEGY_NAME).getD StrategyKind.macdVolume)

/-! ### Platform (Tarmac) pattern (`TarmacPlatformStrategy.per_data_signal`) -/

/-- One OHLCV bar as seen by the Tarmac evaluator (the high/low/amount lines
are not read by `per_data_signal` and are omitted); `op` is the open. -/
structure TBar where
  op : ℚ
  close : ℚ
  volume : ℚ
  deriving DecidableEq, Repr

/-- The parameter block of `TarmacPlatformStrategy`. -/
structure TarmacParams where
  surge_pct : ℚ
  surge_vol_ratio : ℚ
  body_pct_limit : ℚ
  confirm_max_pct : ℚ
  deriving DecidableEq, Repr

/-- Defaults of `TarmacPlatformStrategy.params` (the exit thresholds feed
only the sell signal, which no claim touches). -/
def defaultTarmacParams : TarmacParams :=
  { surge_pct := 19/2, surge_vol_ratio := 2, body_pct_limit := 3,
    confirm_max_pct := 5 }

/-- The `_daily_pct` helper over a newest-first history: the offset `-off`
bar's same-day gain in percent, `none` on short history or zero prior
close. -/
def dailyPct (hist : List TBar) (off : ℕ) : Option ℚ :=
  if hist.length < off + 2 then none
  else
    match hist.get? off, hist.get? (off + 1) with
    | some cur, some prev =>
      if prev.close = 0 then none
      else some ((cur.close - prev.close) / prev.close * 100)
    | _, _ => none

/-- The 5-bar volume average indexed at offset `-3`; `none` models the
not-yet-warm indicator, whose NaN value fails every surge comparison in the
code exactly as an early `return` does. -/
def volMa5At3 (hist : List TBar) : Option ℚ :=
  match hist.get? 3, hist.get? 4, hist.get? 5, hist.get? 6, hist.get? 7 with
  | some b3, some b4, some b5, some b6, some b7 =>
    some ((b3.volume + b4.volume + b5.volume + b6.volume + b7.volume) / 5)
  | _, _, _, _, _ => none

/-- One confirmation day of the pattern (offsets `-2`, `-1`, `0`): gapped
open above the prior close, close above open, intraday body below the limit,
and same-day gain in `(0, confirm_max_pct]` — the upper bound is `<=` in the
code (`0.0 < pct <= self.p.confirm_max_pct`). -/
def tarmacConfirmOk (p : TarmacParams) (hist : List TBar) (off : ℕ) : Bool :=
  match dailyPct hist off, hist.get? off, hist.get? (off + 1) with
  | some pct, some cur, some prev =>
    let body := if cur.op ≠ 0 then (cur.close - cur.op) / cur.op * 100 else 0
    decide (cur.op > prev.close) && decide (cur.close > cur.op) &&
    decide (body < p.body_pct_limit) &&
    decide (0 < pct) && decide (pct ≤ p.confirm_max_pct)
  | _, _, _ => false

/-- The entry signal of `TarmacPlatformStrategy.per_data_signal`: the surge
day at offset `-3` plus the three confirmation days. -/
def tarmacEntry (p : TarmacParams) (hist : List TBar) : Bool :=
  if hist.length < 4 then false
  else
    match dailyPct hist 3 with
    | none => false
    | some surgePct =>
      match volMa5At3 hist, hist.get? 3 with
      | some m, some b3 =>
        if m = 0 then false
        else
          if decide (surgePct > p.surge_pct) && decide (b3.close > b3.op) &&
             decide (b3.volume / m ≥ p.surge_vol_ratio) then
            tarmacConfirmOk p hist 2 && tarmacConfirmOk p hist 1 &&
            tarmacConfirmOk p hist 0
          else false
      | _, _ => false

/-- Spec-side wording of one confirmation day (`cur` against the prior bar
`prev`), stated on the price ratios themselves: gapped open above the prior
close, close above open, intraday body `(close-open)/open` below 3%, and
same-day gain positive and at most 5% — the amended upper bound. Used only to
compare against the code-side `tarmacConfirmOk`. -/
def tarmacConfirmSpec (cur prev : TBar) : Prop :=
  cur.op > prev.close ∧ cur.close > cur.op
    ∧ (cur.close - cur.op) / cur.op < 3/100
    ∧ 0 < (cur.close - prev.close) / prev.close
    ∧ (cur.close - prev.close) / prev.close ≤ 5/100

/-! ### Metrics and equity curve (`backtest.py` lines 47-83) -/

/-- The initial cash constant of `run_backtest`. -/
def initial_cash : ℚ := 100000

/-- Annualized return (`backtest.py` line 53):
`(1+total_return) ** (365.0/num_days) - 1 if num_days > 0 else 0.0`. -/
noncomputable def annual_return (total_return : ℝ) (num_days : ℤ) : ℝ :=
  if 0 < num_days then
    (1 + total_return) ^ ((365 : ℝ) / (num_days : ℝ)) - 1
  else 0

/-- Win rate (`backtest.py` line 60): `wins / trades if trades > 0 else 0`. -/
def win_rate (wins trades : ℕ) : ℚ :=
  if 0 < trades then (wins : ℚ) / trades else 0

/-- The compounding loop over `returns_dict` building `equity_list`. -/
def buildEquityAux (v : ℚ) : List (ℤ × ℚ) → List (ℤ × ℚ)
  | [] => []
  | (dt, r) :: rest =>
    let v' := v * (1 + r)
    (dt, v') :: buildEquityAux v' rest

/-- The `equity_list` built from the per-bar return series. -/
def buildEquityList (returns : List (ℤ × ℚ)) : List (ℤ × ℚ) :=
  buildEquityAux initial_cash returns

/-- The equity curve before the benchmark merge: the compounded list, or —
when it is empty — one point per reference-stream date at the initial
cash. -/
def equityCurve (returns : List (ℤ × ℚ)) (refDates : List ℤ) :
    List (ℤ × ℚ) :=
  let el := buildEquityList returns
  if el = [] then refDates.map (fun d => (d, initial_cash)) else el

/-! ### Invariant vocabulary -/

/-- Contribution of one entry slot to the open-position count. -/
def countSomeOne (e : Option (ℚ × ℤ)) : ℕ := if e.isSome then 1 else 0

/-- Number of open positions in an entry table. -/
def countSome (es : List (Option (ℚ × ℤ))) : ℕ :=
  (es.filter (fun e => e.isSome)).length

/-- The per-record invariant of claim C5: the entry date does not exceed the
exit date, and `holding_days` is exactly their calendar-day difference. -/
def RecOk (r : TradeRecord) : Prop :=
  r.entry_date ≤ r.exit_date ∧ r.holding_days = r.exit_date - r.entry_date

/-- All records of a ledger satisfy `RecOk`. -/
def RecsOk (l : List TradeRecord) : Prop := ∀ r ∈ l, RecOk r

/-- An entry slot's buy date (if any) is at most `d`. -/
def OptLe (e : Option (ℚ × ℤ)) (d : ℤ) : Prop :=
  ∀ p ed, e = some (p, ed) → ed ≤ d

/-- All open entries of the table were bought no later than `d`. -/
def EntriesLe (es : List (Option (ℚ × ℤ))) (d : ℤ) : Prop :=
  ∀ e ∈ es, OptLe e d

example :
    (baseSim 1 [⟨0, [⟨10, true, false, true⟩]⟩,
                ⟨3, [⟨12, false, true, false⟩]⟩]).books.records =
      [⟨0, 0, 3, 10, 12, 1/5, 3⟩] := by
  norm_num [baseSim, baseRun, baseNext, scanInstr, baseInstrStep, stopAux,
    stopStep, initState, closePos, mkRecord]

example :
    (baseSim 1 [⟨0, [⟨10, true, false, true⟩]⟩]).books.records =
      [⟨0, 0, 0, 10, 10, 0, 0⟩] := by
  norm_num [baseSim, baseRun, baseNext, scanInstr, baseInstrStep, stopAux,
    stopStep, initState, closePos, mkRecord]

example :
    (rotSim { defaultRotParams with rebalance_days := 2 } 1
      [⟨1, [⟨10, none⟩]⟩, ⟨2, [⟨10, some (1/10)⟩]⟩,
       ⟨3, [⟨9, some (-1/10)⟩]⟩]).books.records =
      [⟨0, 2, 3, 10, 9, -1/10, 1⟩] := by
  norm_num [rotSim, rotRun, rotNext, scanInstr, rotSellStep,
    rotRebalCloseStep, rotRebalOpenStep, rocList, eligible, sortedCandidates,
    targetList, sellHits, buyHits, scoreGE, defaultRotParams, stopAux,
    stopStep, initState, closePos, mkRecord, List.mergeSort_nil,
    List.mergeSort_singleton, List.enum, List.enumFrom, List.filterMap_cons,
    List.filterMap_nil]

/-! ### Generic loop invariants -/

theorem countSome_cons (e : Option (ℚ × ℤ)) (es : List (Option (ℚ × ℤ))) :
    countSome (e :: es) = countSomeOne e + countSome es := by
  cases e with
  | none => simp [countSome, countSomeOne, List.filter_cons]
  | some v => simp [countSome, countSomeOne, List.filter_cons, Nat.add_comm]

theorem countSome_replicate_none (n : ℕ) :
    countSome (List.replicate n none) = 0 := by
  induction n with
  | zero => rfl
  | succ n ih => simp [List.replicate, countSome_cons, ih, countSomeOne]

theorem scanInstr_length (f : ℕ → α → Option (ℚ × ℤ) → Books → Option (ℚ × ℤ) × Books) :
    ∀ (bs : List α) (es : List (Option (ℚ × ℤ))) (sym : ℕ) (bk : Books),
      (scanInstr f sym bs es bk).1.length = es.length := by
  intro bs
  induction bs with
  | nil => intro es sym bk; simp [scanInstr]
  | cons b bs ih =>
    intro es sym bk
    cases es with
    | nil => simp [scanInstr]
    | cons e es => simp [scanInstr, ih]

theorem scanInstr_trades
    (f : ℕ → α → Option (ℚ × ℤ) → Books → Option (ℚ × ℤ) × Books)
    (hf : ∀ sym b e bk, (f sym b e bk).2.trades + bk.records.length
      = bk.trades + (f sym b e bk).2.records.length) :
    ∀ (bs : List α) (es : List (Option (ℚ × ℤ))) (sym : ℕ) (bk : Books),
      (scanInstr f sym bs es bk).2.trades + bk.records.length
        = bk.trades + (scanInstr f sym bs es bk).2.records.length := by
  intro bs
  induction bs with
  | nil => intro es sym bk; simp [scanInstr]
  | cons b bs ih =>
    intro es sym bk
    cases es with
    | nil => simp [scanInstr]
    | cons e es =>
      have h1 := hf sym b e bk
      have h2 := ih es (sym + 1) (f sym b e bk).2
      simp only [scanInstr]
      omega

theorem scanInstr_wins
    (f : ℕ → α → Option (ℚ × ℤ) → Books → Option (ℚ × ℤ) × Books)
    (hf : ∀ sym b e bk, (f sym b e bk).2.wins + bk.trades
      ≤ bk.wins + (f sym b e bk).2.trades) :
    ∀ (bs : List α) (es : List (Option (ℚ × ℤ))) (sym : ℕ) (bk : Books),
      (scanInstr f sym bs es bk).2.wins + bk.trades
        ≤ bk.wins + (scanInstr f sym bs es bk).2.trades := by
  intro bs
  induction bs with
  | nil => intro es sym bk; simp [scanInstr]
  | cons b bs ih =>
    intro es sym bk
    cases es with
    | nil => simp [scanInstr]
    | cons e es =>
      have h1 := hf sym b e bk
      have h2 := ih es (sym + 1) (f sym b e bk).2
      simp only [scanInstr]
      omega

theorem scanInstr_opened
    (f : ℕ → α → Option (ℚ × ℤ) → Books → Option (ℚ × ℤ) × Books)
    (hf : ∀ sym b e bk,
      (f sym b e bk).2.opened + bk.records.length + countSomeOne e
        = bk.opened + (f sym b e bk).2.records.length
            + countSomeOne (f sym b e bk).1) :
    ∀ (bs : List α) (es : List (Option (ℚ × ℤ))) (sym : ℕ) (bk : Books),
      (scanInstr f sym bs es bk).2.opened + bk.records.length + countSome es
        = bk.opened + (scanInstr f sym bs es bk).2.records.length
            + countSome (scanInstr f sym bs es bk).1 := by
  intro bs
  induction bs with
  | nil => intro es sym bk; simp [scanInstr]
  | cons b bs ih =>
    intro es sym bk
    cases es with
    | nil => simp [scanInstr, countSome]
    | cons e es =>
      have h1 := hf sym b e bk
      have h2 := ih es (sym + 1) (f sym b e bk).2
      simp only [scanInstr, countSome_cons]
      omega

theorem scanInstr_recsOk
    (f : ℕ → α → Option (ℚ × ℤ) → Books → Option (ℚ × ℤ) × Books) (d : ℤ)
    (hf : ∀ sym b e bk, RecsOk bk.records → OptLe e d →
      RecsOk (f sym b e bk).2.records ∧ OptLe (f sym b e bk).1 d) :
    ∀ (bs : List α) (es : List (Option (ℚ × ℤ))) (sym : ℕ) (bk : Books),
      RecsOk bk.records → EntriesLe es d →
      RecsOk (scanInstr f sym bs es bk).2.records
        ∧ EntriesLe (scanInstr f sym bs es bk).1 d := by
  intro bs
  induction bs with
  | nil => intro es sym bk hbk hes; simpa [scanInstr] using ⟨hbk, hes⟩
  | cons b bs ih =>
    intro es sym bk hbk hes
    cases es with
    | nil =>
      simp only [scanInstr]
      exact ⟨hbk, by intro e he; simp at he⟩
    | cons e es =>
      have he : OptLe e d := hes e (List.mem_cons_self e es)
      have hes' : EntriesLe es d := fun x hx => hes x (List.mem_cons_of_mem e hx)
      have h1 := hf sym b e bk hbk he
      have h2 := ih es (sym + 1) (f sym b e bk).2 h1.1 hes'
      simp only [scanInstr]
      refine ⟨h2.1, ?_⟩
      intro x hx
      rcases List.mem_cons.mp hx with h | h
      · exact h ▸ h1.2
      · exact h2.2 x h

/-! ### Per-step facts -/

theorem baseInstrStep_trades (d : ℤ) (sym : ℕ) (b : InstrBar)
    (e : Option (ℚ × ℤ)) (bk : Books) :
    (baseInstrStep d sym b e bk).2.trades + bk.records.length
      = bk.trades + (baseInstrStep d sym b e bk).2.records.length := by
  rcases e with _ | ⟨ep, ed⟩ <;> simp only [baseInstrStep] <;> split <;>
    simp [closePos] <;> omega

theorem baseInstrStep_wins (d : ℤ) (sym : ℕ) (b : InstrBar)
    (e : Option (ℚ × ℤ)) (bk : Books) :
    (baseInstrStep d sym b e bk).2.wins + bk.trades
      ≤ bk.wins + (baseInstrStep d sym b e bk).2.trades := by
  rcases e with _ | ⟨ep, ed⟩ <;> simp only [baseInstrStep] <;> split <;>
    simp [closePos] <;> split <;> omega

theorem baseInstrStep_opened (d : ℤ) (sym : ℕ) (b : InstrBar)
    (e : Option (ℚ × ℤ)) (bk : Books) :
    (baseInstrStep d sym b e bk).2.opened + bk.records.length + countSomeOne e
      = bk.opened + (baseInstrStep d sym b e bk).2.records.length
          + countSomeOne (baseInstrStep d sym b e bk).1 := by
  rcases e with _ | ⟨ep, ed⟩ <;> simp only [baseInstrStep] <;> split <;>
    simp [closePos, countSomeOne] <;> omega

theorem closePos_recsOk (bk : Books) (sym : ℕ) (ep : ℚ) (ed : ℤ) (c : ℚ)
    (d : ℤ) (hbk : RecsOk bk.records) (hd : ed ≤ d) :
    RecsOk (closePos bk sym ep ed c d).records := by
  intro r hr
  rcases List.mem_append.mp hr with h | h
  · exact hbk r h
  · rcases List.mem_singleton.mp h with rfl
    exact ⟨hd, rfl⟩

theorem baseInstrStep_recsOk (d : ℤ) (sym : ℕ) (b : InstrBar)
    (e : Option (ℚ × ℤ)) (bk : Books) (hbk : RecsOk bk.records)
    (he : OptLe e d) :
    RecsOk (baseInstrStep d sym b e bk).2.records
      ∧ OptLe (baseInstrStep d sym b e bk).1 d := by
  rcases e with _ | ⟨ep, ed⟩
  · simp only [baseInstrStep]
    split
    · exact ⟨hbk, by intro p x h; simp at h; omega⟩
    · exact ⟨hbk, by intro p x h; simp at h⟩
  · have hed : ed ≤ d := he ep ed rfl
    simp only [baseInstrStep]
    split
    · exact ⟨closePos_recsOk bk sym ep ed b.close d hbk hed, by intro p x h; simp at h⟩
    · exact ⟨hbk, by intro p x h; simp at h; omega⟩

theorem rotSellStep_trades (p : RotParams) (d : ℤ) (sym : ℕ) (b : RotInstr)
    (e : Option (ℚ × ℤ)) (bk : Books) :
    (rotSellStep p d sym b e bk).2.trades + bk.records.length
      = bk.trades + (rotSellStep p d sym b e bk).2.records.length := by
  rcases e with _ | ⟨ep, ed⟩ <;> rcases hb : b.roc with _ | rv <;>
    simp only [rotSellStep, hb] <;> split <;> simp [closePos] <;> omega

theorem rotSellStep_wins (p : RotParams) (d : ℤ) (sym : ℕ) (b : RotInstr)
    (e : Option (ℚ × ℤ)) (bk : Books) :
    (rotSellStep p d sym b e bk).2.wins + bk.trades
      ≤ bk.wins + (rotSellStep p d sym b e bk).2.trades := by
  rcases e with _ | ⟨ep, ed⟩ <;> rcases hb : b.roc with _ | rv <;>
    simp only [rotSellStep, hb] <;> (try split) <;> simp [closePos] <;>
    (try split) <;> omega

theorem rotSellStep_opened (p : RotParams) (d : ℤ) (sym : ℕ) (b : RotInstr)
    (e : Option (ℚ × ℤ)) (bk : Books) :
    (rotSellStep p d sym b e bk).2.opened + bk.records.length + countSomeOne e
      = bk.opened + (rotSellStep p d sym b e bk).2.records.length
          + countSomeOne (rotSellStep p d sym b e bk).1 := by
  rcases e with _ | ⟨ep, ed⟩ <;> rcases hb : b.roc with _ | rv <;>
    simp only [rotSellStep, hb] <;> split <;>
    simp [closePos, countSomeOne] <;> omega

theorem rotSellStep_recsOk (p : RotParams) (d : ℤ) (sym : ℕ) (b : RotInstr)
    (e : Option (ℚ × ℤ)) (bk : Books) (hbk : RecsOk bk.records)
    (he : OptLe e d) :
    RecsOk (rotSellStep p d sym b e bk).2.records
      ∧ OptLe (rotSellStep p d sym b e bk).1 d := by
  rcases e with _ | ⟨ep, ed⟩
  · exact ⟨hbk, by intro q x h; simp [rotSellStep] at h⟩
  · have hed : ed ≤ d := he ep ed rfl
    rcases hb : b.roc with _ | rv
    · simp only [rotSellStep, hb]
      exact ⟨hbk, by intro q x h; simp at h; omega⟩
    · simp only [rotSellStep, hb]
      split
      · exact ⟨closePos_recsOk bk sym ep ed b.close d hbk hed,
          by intro q x h; simp at h⟩
      · exact ⟨hbk, by intro q x h; simp at h; omega⟩

theorem rotRebalCloseStep_trades (d : ℤ) (tgt : List ℕ) (sym : ℕ)
    (b : RotInstr) (e : Option (ℚ × ℤ)) (bk : Books) :
    (rotRebalCloseStep d tgt sym b e bk).2.trades + bk.records.length
      = bk.trades + (rotRebalCloseStep d tgt sym b e bk).2.records.length := by
  rcases e with _ | ⟨ep, ed⟩ <;> simp only [rotRebalCloseStep] <;> split <;>
    simp [closePos] <;> omega

theorem rotRebalCloseStep_wins (d : ℤ) (tgt : List ℕ) (sym : ℕ)
    (b : RotInstr) (e : Option (ℚ × ℤ)) (bk : Books) :
    (rotRebalCloseStep d tgt sym b e bk).2.wins + bk.trades
      ≤ bk.wins + (rotRebalCloseStep d tgt sym b e bk).2.trades := by
  rcases e with _ | ⟨ep, ed⟩ <;> simp only [rotRebalCloseStep] <;>
    (try split) <;> simp [closePos] <;> (try split) <;> omega

theorem rotRebalCloseStep_opened (d : ℤ) (tgt : List ℕ) (sym : ℕ)
    (b : RotInstr) (e : Option (ℚ × ℤ)) (bk : Books) :
    (rotRebalCloseStep d tgt sym b e bk).2.opened + bk.records.length
        + countSomeOne e
      = bk.opened + (rotRebalCloseStep d tgt sym b e bk).2.records.length
          + countSomeOne (rotRebalCloseStep d tgt sym b e bk).1 := by
  rcases e with _ | ⟨ep, ed⟩ <;> simp only [rotRebalCloseStep] <;> split <;>
    simp [closePos, countSomeOne] <;> omega

theorem rotRebalCloseStep_recsOk (d : ℤ) (tgt : List ℕ) (sym : ℕ)
    (b : RotInstr) (e : Option (ℚ × ℤ)) (bk : Books) (hbk : RecsOk bk.records)
    (he : OptLe e d) :
    RecsOk (rotRebalCloseStep d tgt sym b e bk).2.records
      ∧ OptLe (rotRebalCloseStep d tgt sym b e bk).1 d := by
  rcases e with _ | ⟨ep, ed⟩
  · exact ⟨hbk, by intro q x h; simp [rotRebalCloseStep] at h⟩
  · have hed : ed ≤ d := he ep ed rfl
    simp only [rotRebalCloseStep]
    split
    · exact ⟨hbk, by intro q x h; simp at h; omega⟩
    · exact ⟨closePos_recsOk bk sym ep ed b.close d hbk hed,
        by intro q x h; simp at h⟩

theorem rotRebalOpenStep_trades (d : ℤ) (tgt : List ℕ) (sym : ℕ)
    (b : RotInstr) (e : Option (ℚ × ℤ)) (bk : Books) :
    (rotRebalOpenStep d tgt sym b e bk).2.trades + bk.records.length
      = bk.trades + (rotRebalOpenStep d tgt sym b e bk).2.records.length := by
  rcases e with _ | ⟨ep, ed⟩ <;> simp only [rotRebalOpenStep] <;> split <;>
    simp

theorem rotRebalOpenStep_wins (d : ℤ) (tgt : List ℕ) (sym : ℕ)
    (b : RotInstr) (e : Option (ℚ × ℤ)) (bk : Books) :
    (rotRebalOpenStep d tgt sym b e bk).2.wins + bk.trades
      ≤ bk.wins + (rotRebalOpenStep d tgt sym b e bk).2.trades := by
  rcases e with _ | ⟨ep, ed⟩ <;> simp only [rotRebalOpenStep] <;>
    (try split) <;> simp

theorem rotRebalOpenStep_opened (d : ℤ) (tgt : List ℕ) (sym : ℕ)
    (b : RotInstr) (e : Option (ℚ × ℤ)) (bk : Books) :
    (rotRebalOpenStep d tgt sym b e bk).2.opened + bk.records.length
        + countSomeOne e
      = bk.opened + (rotRebalOpenStep d tgt sym b e bk).2.records.length
          + countSomeOne (rotRebalOpenStep d tgt sym b e bk).1 := by
  rcases e with _ | ⟨ep, ed⟩ <;> simp only [rotRebalOpenStep] <;>
    (try split) <;> simp [countSomeOne] <;> omega

theorem rotRebalOpenStep_recsOk (d : ℤ) (tgt : List ℕ) (sym : ℕ)
    (b : RotInstr) (e : Option (ℚ × ℤ)) (bk : Books) (hbk : RecsOk bk.records)
    (he : OptLe e d) :
    RecsOk (rotRebalOpenStep d tgt sym b e bk).2.records
      ∧ OptLe (rotRebalOpenStep d tgt sym b e bk).1 d := by
  rcases e with _ | ⟨ep, ed⟩
  · simp only [rotRebalOpenStep]
    split
    · exact ⟨hbk, by intro q x h; simp at h; omega⟩
    · exact ⟨hbk, by intro q x h; simp at h⟩
  · have hed : ed ≤ d := he ep ed rfl
    exact ⟨hbk, by intro q x h; simp [rotRebalOpenStep] at h; omega⟩

theorem stopStep_trades (d : ℤ) (sym : ℕ) (c : ℚ) (e : Option (ℚ × ℤ))
    (bk : Books) :
    (stopStep d sym c e bk).2.trades + bk.records.length
      = bk.trades + (stopStep d sym c e bk).2.records.length := by
  rcases e with _ | ⟨ep, ed⟩ <;> simp [stopStep, closePos] <;> omega

theorem stopStep_wins (d : ℤ) (sym : ℕ) (c : ℚ) (e : Option (ℚ × ℤ))
    (bk : Books) :
    (stopStep d sym c e bk).2.wins + bk.trades
      ≤ bk.wins + (stopStep d sym c e bk).2.trades := by
  rcases e with _ | ⟨ep, ed⟩ <;> simp [stopStep, closePos] <;> (try split) <;>
    omega

theorem stopStep_recsOk (d : ℤ) (sym : ℕ) (c : ℚ) (e : Option (ℚ × ℤ))
    (bk : Books) (hbk : RecsOk bk.records) (he : OptLe e d) :
    RecsOk (stopStep d sym c e bk).2.records
      ∧ OptLe (stopStep d sym c e bk).1 d := by
  rcases e with _ | ⟨ep, ed⟩
  · exact ⟨hbk, he⟩
  · exact ⟨closePos_recsOk bk sym ep ed c d hbk (he ep ed rfl), he⟩

theorem stopScan_opened (d : ℤ) :
    ∀ (cs : List ℚ) (es : List (Option (ℚ × ℤ))) (sym : ℕ) (bk : Books),
      (scanInstr (stopStep d) sym cs es bk).2.opened = bk.opened := by
  intro cs
  induction cs with
  | nil => intro es sym bk; simp [scanInstr]
  | cons c cs ih =>
    intro es sym bk
    cases es with
    | nil => simp [scanInstr]
    | cons e es =>
      simp only [scanInstr, ih]
      rcases e with _ | ⟨ep, ed⟩ <;> simp [stopStep, closePos]

theorem stopScan_count (d : ℤ) :
    ∀ (cs : List ℚ) (es : List (Option (ℚ × ℤ))) (sym : ℕ) (bk : Books),
      es.length ≤ cs.length →
      (scanInstr (stopStep d) sym cs es bk).2.records.length
        = bk.records.length + countSome es := by
  intro cs
  induction cs with
  | nil =>
    intro es sym bk h
    have : es = [] := List.length_eq_zero.mp (Nat.le_zero.mp h)
    subst this
    simp [scanInstr, countSome]
  | cons c cs ih =>
    intro es sym bk h
    cases es with
    | nil => simp [scanInstr, countSome]
    | cons e es =>
      simp only [List.length_cons, Nat.add_le_add_iff_right] at h
      rcases e with _ | ⟨ep, ed⟩ <;>
        simp [scanInstr, stopStep, closePos, ih es (sym + 1) _ h,
          countSome_cons, countSomeOne] <;> omega

/-! ### Machine-level invariants, base family -/

theorem entriesLe_mono {es : List (Option (ℚ × ℤ))} {d d' : ℤ}
    (h : EntriesLe es d) (hd : d ≤ d') : EntriesLe es d' :=
  fun e he p ed hpe => le_trans (h e he p ed hpe) hd

theorem getLastD_map_of_getLast? {β : Type _} (f : β → ℤ) :
    ∀ (l : List β) (lb : β) (d₀ : ℤ), l.getLast? = some lb →
      (l.map f).getLastD d₀ = f lb := by
  intro l lb d₀ h
  simp [List.getLastD_eq_getLast?, List.getLast?_map, h]

theorem baseNext_trades (bar : BaseBar) (st : EngineState) :
    (baseNext bar st).books.trades + st.books.records.length
      = st.books.trades + (baseNext bar st).books.records.length := by
  simpa [baseNext] using
    scanInstr_trades _ (baseInstrStep_trades bar.date) bar.instrs st.entry 0
      st.books

theorem baseNext_wins (bar : BaseBar) (st : EngineState) :
    (baseNext bar st).books.wins + st.books.trades
      ≤ st.books.wins + (baseNext bar st).books.trades := by
  simpa [baseNext] using
    scanInstr_wins _ (baseInstrStep_wins bar.date) bar.instrs st.entry 0
      st.books

theorem baseNext_opened (bar : BaseBar) (st : EngineState) :
    (baseNext bar st).books.opened + st.books.records.length
        + countSome st.entry
      = st.books.opened + (baseNext bar st).books.records.length
          + countSome (baseNext bar st).entry := by
  simpa [baseNext] using
    scanInstr_opened _ (baseInstrStep_opened bar.date) bar.instrs st.entry 0
      st.books

theorem baseNext_entry_length (bar : BaseBar) (st : EngineState) :
    (baseNext bar st).entry.length = st.entry.length := by
  simpa [baseNext] using
    scanInstr_length (baseInstrStep bar.date) bar.instrs st.entry 0 st.books

theorem baseNext_recsOk (bar : BaseBar) (st : EngineState)
    (hbk : RecsOk st.books.records) (hes : EntriesLe st.entry bar.date) :
    RecsOk (baseNext bar st).books.records
      ∧ EntriesLe (baseNext bar st).entry bar.date := by
  simpa [baseNext] using
    scanInstr_recsOk _ bar.date (baseInstrStep_recsOk bar.date) bar.instrs
      st.entry 0 st.books hbk hes

theorem baseRun_trades :
    ∀ (bars : List BaseBar) (st : EngineState),
      (baseRun bars st).books.trades + st.books.records.length
        = st.books.trades + (baseRun bars st).books.records.length := by
  intro bars
  induction bars with
  | nil => intro st; simp [baseRun]
  | cons b bars ih =>
    intro st
    have h1 := baseNext_trades b st
    have h2 := ih (baseNext b st)
    simp only [baseRun, List.foldl_cons] at h2 ⊢
    omega

theorem baseRun_wins :
    ∀ (bars : List BaseBar) (st : EngineState),
      (baseRun bars st).books.wins + st.books.trades
        ≤ st.books.wins + (baseRun bars st).books.trades := by
  intro bars
  induction bars with
  | nil => intro st; simp [baseRun]
  | cons b bars ih =>
    intro st
    have h1 := baseNext_wins b st
    have h2 := ih (baseNext b st)
    simp only [baseRun, List.foldl_cons] at h2 ⊢
    omega

theorem baseRun_opened :
    ∀ (bars : List BaseBar) (st : EngineState),
      (baseRun bars st).books.opened + st.books.records.length
          + countSome st.entry
        = st.books.opened + (baseRun bars st).books.records.length
            + countSome (baseRun bars st).entry := by
  intro bars
  induction bars with
  | nil => intro st; simp [baseRun]
  | cons b bars ih =>
    intro st
    have h1 := baseNext_opened b st
    have h2 := ih (baseNext b st)
    simp only [baseRun, List.foldl_cons] at h2 ⊢
    omega

theorem baseRun_entry_length :
    ∀ (bars : List BaseBar) (st : EngineState),
      (baseRun bars st).entry.length = st.entry.length := by
  intro bars
  induction bars with
  | nil => intro st; simp [baseRun]
  | cons b bars ih =>
    intro st
    have h1 := baseNext_entry_length b st
    have h2 := ih (baseNext b st)
    simp only [baseRun, List.foldl_cons] at h2 ⊢
    omega

theorem baseRun_recsOk :
    ∀ (bars : List BaseBar) (st : EngineState) (d₀ : ℤ),
      RecsOk st.books.records → EntriesLe st.entry d₀ →
      List.Chain (· ≤ ·) d₀ (bars.map (·.date)) →
      RecsOk (baseRun bars st).books.records
        ∧ EntriesLe (baseRun bars st).entry
            ((bars.map (·.date)).getLastD d₀) := by
  intro bars
  induction bars with
  | nil => intro st d₀ hbk hes _; exact ⟨hbk, hes⟩
  | cons b bars ih =>
    intro st d₀ hbk hes hch
    simp only [List.map_cons, List.chain_cons] at hch
    have hstep := baseNext_recsOk b st hbk (entriesLe_mono hes hch.1)
    have hrest := ih (baseNext b st) b.date hstep.1 hstep.2 hch.2
    simp only [baseRun] at hrest
    simp only [baseRun, List.foldl_cons, List.map_cons, List.getLastD_cons]
    exact hrest

theorem initState_trades (n : ℕ) : (initState n).books.trades = 0 := rfl

theorem initState_wins (n : ℕ) : (initState n).books.wins = 0 := rfl

theorem initState_records (n : ℕ) : (initState n).books.records = [] := rfl

theorem initState_opened (n : ℕ) : (initState n).books.opened = 0 := rfl

theorem initState_countSome (n : ℕ) : countSome (initState n).entry = 0 :=
  countSome_replicate_none n

theorem baseSim_trades_eq (n : ℕ) (bars : List BaseBar) :
    (baseSim n bars).books.trades = (baseSim n bars).books.records.length := by
  have hrun := baseRun_trades bars (initState n)
  simp only [initState_trades, initState_records, List.length_nil] at hrun
  rcases h : bars.getLast? with _ | lb
  · simp only [baseSim, h]
    omega
  · have hstop := scanInstr_trades _ (stopStep_trades lb.date)
      (lb.instrs.map (·.close)) (baseRun bars (initState n)).entry 0
      (baseRun bars (initState n)).books
    simp only [baseSim, h, stopAux]
    omega

theorem baseSim_wins_le (n : ℕ) (bars : List BaseBar) :
    (baseSim n bars).books.wins ≤ (baseSim n bars).books.trades := by
  have hrun := baseRun_wins bars (initState n)
  simp only [initState_trades, initState_wins] at hrun
  rcases h : bars.getLast? with _ | lb
  · simp only [baseSim, h]
    omega
  · have hstop := scanInstr_wins _ (stopStep_wins lb.date)
      (lb.instrs.map (·.close)) (baseRun bars (initState n)).entry 0
      (baseRun bars (initState n)).books
    simp only [baseSim, h, stopAux]
    omega

theorem baseSim_records_eq_opened (n : ℕ) (bars : List BaseBar)
    (hw : ∀ b ∈ bars, b.instrs.length = n) :
    (baseSim n bars).books.records.length = (baseSim n bars).books.opened := by
  have hrun := baseRun_opened bars (initState n)
  simp only [initState_opened, initState_records, initState_countSome,
    List.length_nil] at hrun
  rcases h : bars.getLast? with _ | lb
  · have hnil : bars = [] := List.getLast?_eq_none_iff.mp h
    subst hnil
    simp [baseSim, baseRun, initState]
  · have hlen : (baseRun bars (initState n)).entry.length = n := by
      rw [baseRun_entry_length]; simp [initState]
    have hcs : n ≤ (lb.instrs.map (·.close)).length := by
      simp [hw lb (List.mem_of_getLast?_eq_some h)]
    have hcount := stopScan_count lb.date (lb.instrs.map (·.close))
      (baseRun bars (initState n)).entry 0 (baseRun bars (initState n)).books
      (by omega)
    have hopen := stopScan_opened lb.date (lb.instrs.map (·.close))
      (baseRun bars (initState n)).entry 0 (baseRun bars (initState n)).books
    simp only [baseSim, h, stopAux]
    omega

theorem baseSim_recsOk (n : ℕ) (bars : List BaseBar)
    (hmono : (bars.map (·.date)).Chain' (· ≤ ·)) :
    RecsOk (baseSim n bars).books.records := by
  have hinit : RecsOk (initState n).books.records := by
    intro r hr; simp [initState] at hr
  cases bars with
  | nil => simpa [baseSim, baseRun] using hinit
  | cons b bs =>
    have hes : EntriesLe (initState n).entry b.date := by
      intro e he p ed hpe
      rcases List.eq_of_mem_replicate he with rfl
      simp at hpe
    have hmono' : List.Chain' (· ≤ ·) (b.date :: bs.map (·.date)) := by
      simpa using hmono
    have hch : List.Chain (· ≤ ·) b.date ((b :: bs).map (·.date)) := by
      simp only [List.map_cons, List.chain_cons]
      exact ⟨le_refl _, hmono'⟩
    have hrun := baseRun_recsOk (b :: bs) (initState n) b.date hinit hes hch
    rcases h : (b :: bs).getLast? with _ | lb
    · simp at h
    · have hdate : (((b :: bs).map (·.date)).getLastD b.date) = lb.date :=
        getLastD_map_of_getLast? (·.date) (b :: bs) lb b.date h
      have hstop := scanInstr_recsOk _ lb.date (stopStep_recsOk lb.date)
        (lb.instrs.map (·.close)) (baseRun (b :: bs) (initState n)).entry 0
        (baseRun (b :: bs) (initState n)).books hrun.1
        (hdate ▸ hrun.2)
      simp only [baseSim, h, stopAux]
      exact hstop.1

/-! ### Machine-level invariants, rotation strategy -/

theorem rotNext_books (p : RotParams) (c : ℕ) (bar : RotBar)
    (st : EngineState) :
    ((rotNext p c bar st).books.trades + st.books.records.length
        = st.books.trades + (rotNext p c bar st).books.records.length)
    ∧ ((rotNext p c bar st).books.wins + st.books.trades
        ≤ st.books.wins + (rotNext p c bar st).books.trades)
    ∧ ((rotNext p c bar st).books.opened + st.books.records.length
          + countSome st.entry
        = st.books.opened + (rotNext p c bar st).books.records.length
            + countSome (rotNext p c bar st).entry)
    ∧ (rotNext p c bar st).entry.length = st.entry.length := by
  have h1t := scanInstr_trades _ (rotSellStep_trades p bar.date) bar.instrs
    st.entry 0 st.books
  have h1w := scanInstr_wins _ (rotSellStep_wins p bar.date) bar.instrs
    st.entry 0 st.books
  have h1o := scanInstr_opened _ (rotSellStep_opened p bar.date) bar.instrs
    st.entry 0 st.books
  have h1l := scanInstr_length (rotSellStep p bar.date) bar.instrs
    st.entry 0 st.books
  have h2t := scanInstr_trades _
    (rotRebalCloseStep_trades bar.date (targetList p bar.instrs)) bar.instrs
    (scanInstr (rotSellStep p bar.date) 0 bar.instrs st.entry st.books).1 0
    (scanInstr (rotSellStep p bar.date) 0 bar.instrs st.entry st.books).2
  have h2w := scanInstr_wins _
    (rotRebalCloseStep_wins bar.date (targetList p bar.instrs)) bar.instrs
    (scanInstr (rotSellStep p bar.date) 0 bar.instrs st.entry st.books).1 0
    (scanInstr (rotSellStep p bar.date) 0 bar.instrs st.entry st.books).2
  have h2o := scanInstr_opened _
    (rotRebalCloseStep_opened bar.date (targetList p bar.instrs)) bar.instrs
    (scanInstr (rotSellStep p bar.date) 0 bar.instrs st.entry st.books).1 0
    (scanInstr (rotSellStep p bar.date) 0 bar.instrs st.entry st.books).2
  have h2l := scanInstr_length
    (rotRebalCloseStep bar.date (targetList p bar.instrs)) bar.instrs
    (scanInstr (rotSellStep p bar.date) 0 bar.instrs st.entry st.books).1 0
    (scanInstr (rotSellStep p bar.date) 0 bar.instrs st.entry st.books).2
  have h3t := scanInstr_trades _
    (rotRebalOpenStep_trades bar.date (targetList p bar.instrs)) bar.instrs
    (scanInstr (rotRebalCloseStep bar.date (targetList p bar.instrs)) 0
      bar.instrs
      (scanInstr (rotSellStep p bar.date) 0 bar.instrs st.entry st.books).1
      (scanInstr (rotSellStep p bar.date) 0 bar.instrs st.entry st.books).2).1
    0
    (scanInstr (rotRebalCloseStep bar.date (targetList p bar.instrs)) 0
      bar.instrs
      (scanInstr (rotSellStep p bar.date) 0 bar.instrs st.entry st.books).1
      (scanInstr (rotSellStep p bar.date) 0 bar.instrs st.entry st.books).2).2
  have h3w := scanInstr_wins _
    (rotRebalOpenStep_wins bar.date (targetList p bar.instrs)) bar.instrs
    (scanInstr (rotRebalCloseStep bar.date (targetList p bar.instrs)) 0
      bar.instrs
      (scanInstr (rotSellStep p bar.date) 0 bar.instrs st.entry st.books).1
      (scanInstr (rotSellStep p bar.date) 0 bar.instrs st.entry st.books).2).1
    0
    (scanInstr (rotRebalCloseStep bar.date (targetList p bar.instrs)) 0
      bar.instrs
      (scanInstr (rotSellStep p bar.date) 0 bar.instrs st.entry st.books).1
      (scanInstr (rotSellStep p bar.date) 0 bar.instrs st.entry st.books).2).2
  have h3o := scanInstr_opened _
    (rotRebalOpenStep_opened bar.date (targetList p bar.instrs)) bar.instrs
    (scanInstr (rotRebalCloseStep bar.date (targetList p bar.instrs)) 0
      bar.instrs
      (scanInstr (rotSellStep p bar.date) 0 bar.instrs st.entry st.books).1
      (scanInstr (rotSellStep p bar.date) 0 bar.instrs st.entry st.books).2).1
    0
    (scanInstr (rotRebalCloseStep bar.date (targetList p bar.instrs)) 0
      bar.instrs
      (scanInstr (rotSellStep p bar.date) 0 bar.instrs st.entry st.books).1
      (scanInstr (rotSellStep p bar.date) 0 bar.instrs st.entry st.books).2).2
  have h3l := scanInstr_length
    (rotRebalOpenStep bar.date (targetList p bar.instrs)) bar.instrs
    (scanInstr (rotRebalCloseStep bar.date (targetList p bar.instrs)) 0
      bar.instrs
      (scanInstr (rotSellStep p bar.date) 0 bar.instrs st.entry st.books).1
      (scanInstr (rotSellStep p bar.date) 0 bar.instrs st.entry st.books).2).1
    0
    (scanInstr (rotRebalCloseStep bar.date (targetList p bar.instrs)) 0
      bar.instrs
      (scanInstr (rotSellStep p bar.date) 0 bar.instrs st.entry st.books).1
      (scanInstr (rotSellStep p bar.date) 0 bar.instrs st.entry st.books).2).2
  simp only [rotNext]
  split
  · exact ⟨by dsimp only; omega, by dsimp only; omega, by dsimp only; omega,
      by dsimp only; omega⟩
  · exact ⟨by dsimp only; omega, by dsimp only; omega, by dsimp only; omega,
      by dsimp only; omega⟩

theorem rotNext_recsOk (p : RotParams) (c : ℕ) (bar : RotBar)
    (st : EngineState) (hbk : RecsOk st.books.records)
    (hes : EntriesLe st.entry bar.date) :
    RecsOk (rotNext p c bar st).books.records
      ∧ EntriesLe (rotNext p c bar st).entry bar.date := by
  have h1 := scanInstr_recsOk _ bar.date (rotSellStep_recsOk p bar.date)
    bar.instrs st.entry 0 st.books hbk hes
  have h2 := scanInstr_recsOk _ bar.date
    (rotRebalCloseStep_recsOk bar.date (targetList p bar.instrs)) bar.instrs
    (scanInstr (rotSellStep p bar.date) 0 bar.instrs st.entry st.books).1 0
    (scanInstr (rotSellStep p bar.date) 0 bar.instrs st.entry st.books).2
    h1.1 h1.2
  have h3 := scanInstr_recsOk _ bar.date
    (rotRebalOpenStep_recsOk bar.date (targetList p bar.instrs)) bar.instrs
    (scanInstr (rotRebalCloseStep bar.date (targetList p bar.instrs)) 0
      bar.instrs
      (scanInstr (rotSellStep p bar.date) 0 bar.instrs st.entry st.books).1
      (scanInstr (rotSellStep p bar.date) 0 bar.instrs st.entry st.books).2).1
    0
    (scanInstr (rotRebalCloseStep bar.date (targetList p bar.instrs)) 0
      bar.instrs
      (scanInstr (rotSellStep p bar.date) 0 bar.instrs st.entry st.books).1
      (scanInstr (rotSellStep p bar.date) 0 bar.instrs st.entry st.books).2).2
    h2.1 h2.2
  simp only [rotNext]
  split
  · exact ⟨h3.1, h3.2⟩
  · exact ⟨h1.1, h1.2⟩

theorem rotRun_books (p : RotParams) :
    ∀ (bars : List RotBar) (c : ℕ) (st : EngineState),
      ((rotRun p c bars st).books.trades + st.books.records.length
          = st.books.trades + (rotRun p c bars st).books.records.length)
      ∧ ((rotRun p c bars st).books.wins + st.books.trades
          ≤ st.books.wins + (rotRun p c bars st).books.trades)
      ∧ ((rotRun p c bars st).books.opened + st.books.records.length
            + countSome st.entry
          = st.books.opened + (rotRun p c bars st).books.records.length
              + countSome (rotRun p c bars st).entry)
      ∧ (rotRun p c bars st).entry.length = st.entry.length := by
  intro bars
  induction bars with
  | nil =>
    intro c st
    simp [rotRun]
  | cons b bars ih =>
    intro c st
    have h1 := rotNext_books p (c + 1) b st
    have h2 := ih (c + 1) (rotNext p (c + 1) b st)
    simp only [rotRun] at h2 ⊢
    exact ⟨by omega, by omega, by omega, by omega⟩

theorem rotRun_recsOk (p : RotParams) :
    ∀ (bars : List RotBar) (c : ℕ) (st : EngineState) (d₀ : ℤ),
      RecsOk st.books.records → EntriesLe st.entry d₀ →
      List.Chain (· ≤ ·) d₀ (bars.map (·.date)) →
      RecsOk (rotRun p c bars st).books.records
        ∧ EntriesLe (rotRun p c bars st).entry
            ((bars.map (·.date)).getLastD d₀) := by
  intro bars
  induction bars with
  | nil => intro c st d₀ hbk hes _; exact ⟨hbk, hes⟩
  | cons b bars ih =>
    intro c st d₀ hbk hes hch
    simp only [List.map_cons, List.chain_cons] at hch
    have hstep := rotNext_recsOk p (c + 1) b st hbk (entriesLe_mono hes hch.1)
    have hrest := ih (c + 1) (rotNext p (c + 1) b st) b.date hstep.1 hstep.2
      hch.2
    simp only [rotRun] at hrest
    simp only [rotRun, List.map_cons, List.getLastD_cons]
    exact hrest

theorem rotSim_trades_eq (p : RotParams) (n : ℕ) (bars : List RotBar) :
    (rotSim p n bars).books.trades
      = (rotSim p n bars).books.records.length := by
  have hrun := (rotRun_books p bars 0 (initState n)).1
  simp only [initState_trades, initState_records, List.length_nil] at hrun
  rcases h : bars.getLast? with _ | lb
  · simp only [rotSim, h]
    omega
  · have hstop := scanInstr_trades _ (stopStep_trades lb.date)
      (lb.instrs.map (·.close)) (rotRun p 0 bars (initState n)).entry 0
      (rotRun p 0 bars (initState n)).books
    simp only [rotSim, h, stopAux]
    omega

theorem rotSim_wins_le (p : RotParams) (n : ℕ) (bars : List RotBar) :
    (rotSim p n bars).books.wins ≤ (rotSim p n bars).books.trades := by
  have hrun := (rotRun_books p bars 0 (initState n)).2.1
  simp only [initState_trades, initState_wins] at hrun
  rcases h : bars.getLast? with _ | lb
  · simp only [rotSim, h]
    omega
  · have hstop := scanInstr_wins _ (stopStep_wins lb.date)
      (lb.instrs.map (·.close)) (rotRun p 0 bars (initState n)).entry 0
      (rotRun p 0 bars (initState n)).books
    simp only [rotSim, h, stopAux]
    omega

theorem rotSim_records_eq_opened (p : RotParams) (n : ℕ) (bars : List RotBar)
    (hw : ∀ b ∈ bars, b.instrs.length = n) :
    (rotSim p n bars).books.records.length
      = (rotSim p n bars).books.opened := by
  have hrun := (rotRun_books p bars 0 (initState n)).2.2.1
  simp only [initState_opened, initState_records, initState_countSome,
    List.length_nil] at hrun
  rcases h : bars.getLast? with _ | lb
  · have hnil : bars = [] := List.getLast?_eq_none_iff.mp h
    subst hnil
    simp [rotSim, rotRun, initState]
  · have hlen : (rotRun p 0 bars (initState n)).entry.length = n := by
      rw [(rotRun_books p bars 0 (initState n)).2.2.2]; simp [initState]
    have hcs : n ≤ (lb.instrs.map (·.close)).length := by
      simp [hw lb (List.mem_of_getLast?_eq_some h)]
    have hcount := stopScan_count lb.date (lb.instrs.map (·.close))
      (rotRun p 0 bars (initState n)).entry 0
      (rotRun p 0 bars (initState n)).books (by omega)
    have hopen := stopScan_opened lb.date (lb.instrs.map (·.close))
      (rotRun p 0 bars (initState n)).entry 0
      (rotRun p 0 bars (initState n)).books
    simp only [rotSim, h, stopAux]
    omega

theorem rotSim_recsOk (p : RotParams) (n : ℕ) (bars : List RotBar)
    (hmono : (bars.map (·.date)).Chain' (· ≤ ·)) :
    RecsOk (rotSim p n bars).books.records := by
  have hinit : RecsOk (initState n).books.records := by
    intro r hr; simp [initState] at hr
  cases bars with
  | nil => simpa [rotSim, rotRun] using hinit
  | cons b bs =>
    have hes : EntriesLe (initState n).entry b.date := by
      intro e he q ed hpe
      rcases List.eq_of_mem_replicate he with rfl
      simp at hpe
    have hmono' : List.Chain' (· ≤ ·) (b.date :: bs.map (·.date)) := by
      simpa using hmono
    have hch : List.Chain (· ≤ ·) b.date ((b :: bs).map (·.date)) := by
      simp only [List.map_cons, List.chain_cons]
      exact ⟨le_refl _, hmono'⟩
    have hrun := rotRun_recsOk p (b :: bs) 0 (initState n) b.date hinit hes
      hch
    rcases h : (b :: bs).getLast? with _ | lb
    · simp at h
    · have hdate : (((b :: bs).map (·.date)).getLastD b.date) = lb.date :=
        getLastD_map_of_getLast? (·.date) (b :: bs) lb b.date h
      have hstop := scanInstr_recsOk _ lb.date (stopStep_recsOk lb.date)
        (lb.instrs.map (·.close)) (rotRun p 0 (b :: bs) (initState n)).entry 0
        (rotRun p 0 (b :: bs) (initState n)).books hrun.1
        (hdate ▸ hrun.2)
      simp only [rotSim, h, stopAux]
      exact hstop.1

/-! ### Metric and selection facts -/

theorem win_rate_bounds (w t : ℕ) (h : w ≤ t) :
    0 ≤ win_rate w t ∧ win_rate w t ≤ 1 ∧ (t = 0 → win_rate w t = 0) := by
  unfold win_rate
  rcases Nat.eq_zero_or_pos t with rfl | ht
  · simp
  · rw [if_pos ht]
    refine ⟨div_nonneg (Nat.cast_nonneg w) (Nat.cast_nonneg t), ?_,
      fun h0 => absurd h0 (Nat.pos_iff_ne_zero.mp ht)⟩
    rw [div_le_one (by exact_mod_cast ht)]
    exact_mod_cast h

theorem scoreGE_trans : ∀ (a b c : ℕ × ℚ),
    scoreGE a b → scoreGE b c → scoreGE a c := by
  intro a b c hab hbc
  simp only [scoreGE, decide_eq_true_eq] at *
  exact le_trans hbc hab

theorem scoreGE_total : ∀ (a b : ℕ × ℚ), scoreGE a b || scoreGE b a := by
  intro a b
  simp only [scoreGE, Bool.or_eq_true, decide_eq_true_eq]
  exact le_total b.2 a.2

theorem targetList_eq_drop_take (p : RotParams) (instrs : List RotInstr) :
    targetList p instrs
      = (((sortedCandidates p instrs).drop p.dropN).take p.topK).map
          Prod.fst := by
  unfold targetList
  split
  · rfl
  · next h =>
    have h0 : p.dropN = 0 := by omega
    simp [h0]

/-! ### Claim theorems -/

/-- C2 counterexample: the name "未知策略" is not in the registry, yet run
setup does not fail — `run_backtest` silently selects the default strategy
class (`MacdVolumeStrategy`) and proceeds, contradicting "fails fast at run
setup". -/
theorem C2_counterexample :
    STRATEGY_MAP.lookup "未知策略" = none
      ∧ selectStrategyCls (some "未知策略") = StrategyKind.macdVolume := by
  constructor <;> rfl

/-- C2 (amended): `run_backtest` with an unknown strategy name does not fail
fast; `STRATEGY_MAP.get(name, STRATEGY_MAP[DEFAULT_STRATEGY_NAME])` silently
falls back to the default strategy class for every name outside the
registry. -/
theorem C2_unknown_name_falls_back (nm : String)
    (h : STRATEGY_MAP.lookup nm = none) :
    selectStrategyCls (some nm) = StrategyKind.macdVolume := by
  simp only [selectStrategyCls, Option.getD_some, h, Option.getD_none]
  rfl

/-- C2 witness: a concrete unknown name hits the fallback. -/
theorem C2_witness :
    STRATEGY_MAP.lookup "不存在的策略" = none
      ∧ selectStrategyCls (some "不存在的策略") = StrategyKind.macdVolume :=
  ⟨by rfl, C2_unknown_name_falls_back "不存在的策略" (by rfl)⟩

/-- C6: annualized return is `(1+total_return)^(365/elapsed_days) - 1` for
positive elapsed days, `0` for zero elapsed days (no division error), and
`total_return = 0.10` over 365 elapsed days annualizes to exactly `0.10`. -/
theorem C6_annual_return (t : ℝ) (e : ℤ) :
    (0 < e → annual_return t e = (1 + t) ^ ((365 : ℝ) / (e : ℝ)) - 1)
    ∧ annual_return t 0 = 0
    ∧ annual_return (1/10) 365 = 1/10 := by
  refine ⟨fun h => by rw [annual_return, if_pos h], by simp [annual_return],
    ?_⟩
  rw [annual_return, if_pos (by norm_num)]
  norm_num

/-- C6 witness: the positive-elapsed-days branch at the boundary input. -/
theorem C6_witness :
    (0 : ℤ) < 365
      ∧ annual_return (1/10) 365
          = (1 + 1/10) ^ ((365 : ℝ) / ((365 : ℤ) : ℝ)) - 1 :=
  ⟨by norm_num, (C6_annual_return (1/10) 365).1 (by norm_num)⟩

/-- C9: for every run of either strategy family, the trade counter used for
the metrics equals the length of the trade-record list. -/
theorem C9_trades_eq_records :
    (∀ (n : ℕ) (bars : List BaseBar),
      (baseSim n bars).books.trades
        = (baseSim n bars).books.records.length)
    ∧ ∀ (p : RotParams) (n : ℕ) (bars : List RotBar),
        (rotSim p n bars).books.trades
          = (rotSim p n bars).books.records.length :=
  ⟨baseSim_trades_eq, rotSim_trades_eq⟩

/-- C8: the win rate is `wins/trades` for a positive trade count and `0`
otherwise, where wins only accumulate on exits with exit close strictly
above the entry close (see `closePos`), and it always lies in `[0, 1]`. -/
theorem C8_win_rate_bounds :
    (∀ (n : ℕ) (bars : List BaseBar),
      0 ≤ win_rate (baseSim n bars).books.wins (baseSim n bars).books.trades
      ∧ win_rate (baseSim n bars).books.wins (baseSim n bars).books.trades
          ≤ 1
      ∧ ((baseSim n bars).books.trades = 0 →
          win_rate (baseSim n bars).books.wins (baseSim n bars).books.trades
            = 0))
    ∧ ∀ (p : RotParams) (n : ℕ) (bars : List RotBar),
        0 ≤ win_rate (rotSim p n bars).books.wins
              (rotSim p n bars).books.trades
        ∧ win_rate (rotSim p n bars).books.wins
              (rotSim p n bars).books.trades ≤ 1
        ∧ ((rotSim p n bars).books.trades = 0 →
            win_rate (rotSim p n bars).books.wins
              (rotSim p n bars).books.trades = 0) :=
  ⟨fun n bars => win_rate_bounds _ _ (baseSim_wins_le n bars),
   fun p n bars => win_rate_bounds _ _ (rotSim_wins_le p n bars)⟩

/-- C8 witness: the zero-trade run reports win rate 0. -/
theorem C8_witness :
    (baseSim 0 []).books.trades = 0
      ∧ win_rate (baseSim 0 []).books.wins (baseSim 0 []).books.trades
          = 0 :=
  ⟨rfl, (C8_win_rate_bounds.1 0 []).2.2 rfl⟩

/-- C10: when the accumulated return series is empty, the equity curve is
still one point per reference-stream date, each at the initial cash. -/
theorem C10_empty_returns (refDates : List ℤ) (h : refDates ≠ []) :
    equityCurve [] refDates = refDates.map (fun d => (d, initial_cash))
    ∧ (equityCurve [] refDates).length = refDates.length
    ∧ equityCurve [] refDates ≠ [] := by
  refine ⟨by simp [equityCurve, buildEquityList, buildEquityAux], ?_, ?_⟩
  · simp [equityCurve, buildEquityList, buildEquityAux]
  · simp [equityCurve, buildEquityList, buildEquityAux, h]

/-- C10 witness: a one-date reference stream yields a one-point curve at the
initial cash. -/
theorem C10_witness :
    ([5] : List ℤ) ≠ []
      ∧ equityCurve [] [5] = [(5, initial_cash)]
      ∧ (equityCurve [] [5]).length = ([5] : List ℤ).length
      ∧ equityCurve [] [5] ≠ [] :=
  ⟨by simp, (C10_empty_returns [5] (by simp)).1,
    (C10_empty_returns [5] (by simp)).2.1,
    (C10_empty_returns [5] (by simp)).2.2⟩

/-- C1: in every run of either strategy family (with lockstep bars covering
all `n` instruments), the number of trade records at the end of the run —
`stop`'s forced closure included — equals the ghost count of position
openings: every opened position yields exactly one record, and none yields
two. -/
theorem C1_one_record_per_opened_position :
    (∀ (n : ℕ) (bars : List BaseBar), (∀ b ∈ bars, b.instrs.length = n) →
      (baseSim n bars).books.records.length = (baseSim n bars).books.opened)
    ∧ ∀ (p : RotParams) (n : ℕ) (bars : List RotBar),
        (∀ b ∈ bars, b.instrs.length = n) →
        (rotSim p n bars).books.records.length
          = (rotSim p n bars).books.opened :=
  ⟨baseSim_records_eq_opened, rotSim_records_eq_opened⟩

/-- C1 witness: a one-instrument run with an un-exited entry (forced closure
records it) and a rotation run with an entry and a score exit. -/
theorem C1_witness :
    (baseSim 1 [⟨0, [⟨10, true, false, true⟩]⟩]).books.records.length
        = (baseSim 1 [⟨0, [⟨10, true, false, true⟩]⟩]).books.opened
      ∧ (rotSim defaultRotParams 1
            [⟨1, [⟨10, some (1/2)⟩]⟩]).books.records.length
          = (rotSim defaultRotParams 1
              [⟨1, [⟨10, some (1/2)⟩]⟩]).books.opened :=
  ⟨C1_one_record_per_opened_position.1 1 _ (by decide),
   C1_one_record_per_opened_position.2 defaultRotParams 1 _ (by decide)⟩

/-- C5: on date-monotone bar series, every trade record of either strategy
family satisfies `entry_date ≤ exit_date` and
`holding_days = exit_date - entry_date` exactly. -/
theorem C5_record_dates :
    (∀ (n : ℕ) (bars : List BaseBar),
      (bars.map (·.date)).Chain' (· ≤ ·) →
      ∀ r ∈ (baseSim n bars).books.records,
        r.entry_date ≤ r.exit_date
          ∧ r.holding_days = r.exit_date - r.entry_date)
    ∧ ∀ (p : RotParams) (n : ℕ) (bars : List RotBar),
        (bars.map (·.date)).Chain' (· ≤ ·) →
        ∀ r ∈ (rotSim p n bars).books.records,
          r.entry_date ≤ r.exit_date
            ∧ r.holding_days = r.exit_date - r.entry_date :=
  ⟨fun n bars h => baseSim_recsOk n bars h,
   fun p n bars h => rotSim_recsOk p n bars h⟩

/-- C5 witness: the two-bar buy-then-sell run; its single record has
`entry_date 0 ≤ exit_date 3` and `holding_days = 3`. -/
theorem C5_witness :
    (([⟨0, [⟨10, true, false, true⟩]⟩, ⟨3, [⟨12, false, true, false⟩]⟩] :
        List BaseBar).map (·.date)).Chain' (· ≤ ·)
      ∧ ((⟨0, 0, 3, 10, 12, 1/5, 3⟩ : TradeRecord).entry_date
            ≤ (⟨0, 0, 3, 10, 12, 1/5, 3⟩ : TradeRecord).exit_date
          ∧ (⟨0, 0, 3, 10, 12, 1/5, 3⟩ : TradeRecord).holding_days
              = (⟨0, 0, 3, 10, 12, 1/5, 3⟩ : TradeRecord).exit_date
                  - (⟨0, 0, 3, 10, 12, 1/5, 3⟩ : TradeRecord).entry_date) := by
  have hrec : (baseSim 1 [⟨0, [⟨10, true, false, true⟩]⟩,
      ⟨3, [⟨12, false, true, false⟩]⟩]).books.records
      = [⟨0, 0, 3, 10, 12, 1/5, 3⟩] := by
    norm_num [baseSim, baseRun, baseNext, scanInstr, baseInstrStep, stopAux,
      stopStep, initState, closePos, mkRecord]
  have hch : (([⟨0, [⟨10, true, false, true⟩]⟩,
      ⟨3, [⟨12, false, true, false⟩]⟩] :
      List BaseBar).map (·.date)).Chain' (· ≤ ·) := by
    norm_num [List.chain'_cons, List.chain'_singleton]
  exact ⟨hch,
    C5_record_dates.1 1
      [⟨0, [⟨10, true, false, true⟩]⟩, ⟨3, [⟨12, false, true, false⟩]⟩] hch
      ⟨0, 0, 3, 10, 12, 1/5, 3⟩
      (by rw [hrec]; exact List.mem_singleton_self _)⟩

/-- C7: the rotation selection sorts eligible candidates by score descending
(stable on ties, preserving instrument iteration order), drops `dropN`, and
takes `topK`; as a pure function of its input the selection is
deterministic. -/
theorem C7_selection_stable_sort (p : RotParams) (instrs : List RotInstr) :
    ((sortedCandidates p instrs).Pairwise fun a b => b.2 ≤ a.2)
    ∧ (sortedCandidates p instrs).Perm (eligible p instrs)
    ∧ (∀ x y : ℕ × ℚ, x.2 = y.2 →
        List.Sublist [x, y] (eligible p instrs) →
        List.Sublist [x, y] (sortedCandidates p instrs))
    ∧ targetList p instrs
        = (((sortedCandidates p instrs).drop p.dropN).take p.topK).map
            Prod.fst := by
  refine ⟨?_, List.mergeSort_perm _ _, ?_, targetList_eq_drop_take p instrs⟩
  · exact (List.sorted_mergeSort scoreGE_trans scoreGE_total
      (eligible p instrs)).imp
      (fun hab => by simpa [scoreGE] using hab)
  · intro x y hxy hsub
    refine List.pair_sublist_mergeSort scoreGE_trans scoreGE_total ?_ hsub
    simp [scoreGE, hxy]

/-- C7 witness: two instruments with equal scores; the earlier one stays
first after the sort and is the one retained under a `topK = 1` cutoff. -/
theorem C7_witness :
    (((0 : ℕ), (1 : ℚ)).2 = ((1 : ℕ), (1 : ℚ)).2
        ∧ List.Sublist [((0 : ℕ), (1 : ℚ)), (1, 1)]
            (eligible ⟨[0], 1, [], [], 1, 1, 0, 1⟩
              [⟨10, some 1⟩, ⟨11, some 1⟩]))
      ∧ List.Sublist [((0 : ℕ), (1 : ℚ)), (1, 1)]
          (sortedCandidates ⟨[0], 1, [], [], 1, 1, 0, 1⟩
            [⟨10, some 1⟩, ⟨11, some 1⟩])
      ∧ targetList ⟨[0], 1, [], [], 1, 1, 0, 1⟩
          [⟨10, some 1⟩, ⟨11, some 1⟩] = [0] := by
  have helig : eligible ⟨[0], 1, [], [], 1, 1, 0, 1⟩
      [⟨10, some 1⟩, ⟨11, some 1⟩] = [((0 : ℕ), (1 : ℚ)), (1, 1)] := by
    norm_num [eligible, rocList, buyHits, List.enum, List.enumFrom,
      List.filterMap_cons]
  have hsub : List.Sublist [((0 : ℕ), (1 : ℚ)), (1, 1)]
      (eligible ⟨[0], 1, [], [], 1, 1, 0, 1⟩ [⟨10, some 1⟩, ⟨11, some 1⟩]) := by
    rw [helig]
  have hsorted := (C7_selection_stable_sort ⟨[0], 1, [], [], 1, 1, 0, 1⟩
    [⟨10, some 1⟩, ⟨11, some 1⟩]).2.2.1 ((0 : ℕ), (1 : ℚ)) (1, 1) rfl hsub
  have hms : sortedCandidates ⟨[0], 1, [], [], 1, 1, 0, 1⟩
      [⟨10, some 1⟩, ⟨11, some 1⟩] = [((0 : ℕ), (1 : ℚ)), (1, 1)] := by
    rw [sortedCandidates, helig]
    exact List.mergeSort_of_sorted (by decide)
  refine ⟨⟨rfl, hsub⟩, hsorted, ?_⟩
  rw [targetList_eq_drop_take, hms]
  rfl

/-- C3 counterexample: with `rebalance_days = 2`, a position opened on bar 2
(a rebalance bar) is closed by the score-based exit check on bar 3, whose
day counter 3 satisfies `3 % 2 ≠ 0` — an exit trade record with
`exit_date = 3` exists even though bar 3 is not a rebalance day,
contradicting "on bars that are not rebalance days no such exit occurs". -/
theorem C3_counterexample :
    (rotSim { defaultRotParams with rebalance_days := 2 } 1
        [⟨1, [⟨10, none⟩]⟩, ⟨2, [⟨10, some (1/10)⟩]⟩,
         ⟨3, [⟨9, some (-1/10)⟩]⟩]).books.records
      = [⟨0, 2, 3, 10, 9, -1/10, 1⟩]
    ∧ 3 % ({ defaultRotParams with rebalance_days := 2 } :
        RotParams).rebalance_days ≠ 0 := by
  constructor
  · norm_num [rotSim, rotRun, rotNext, scanInstr, rotSellStep,
      rotRebalCloseStep, rotRebalOpenStep, rocList, eligible,
      sortedCandidates, targetList, sellHits, buyHits, scoreGE,
      defaultRotParams, stopAux, stopStep, initState, closePos, mkRecord,
      List.mergeSort_nil, List.mergeSort_singleton, List.enum,
      List.enumFrom, List.filterMap_cons, List.filterMap_nil]
  · decide

/-- C3 (amended): the score-based exit check runs on every bar, before the
rebalance-gated selection; on a bar whose day counter is not a multiple of
`rebalance_days`, a held instrument whose score meets the exit thresholds is
still closed, and the bar's entire effect is exactly that exit check. -/
theorem C3_exit_check_every_bar (p : RotParams) (counter : ℕ) (bar : RotBar)
    (st : EngineState) (cl rv ep : ℚ) (ed : ℤ)
    (hentry : st.entry = [some (ep, ed)])
    (hbar : bar.instrs = [⟨cl, some rv⟩])
    (hsell : sellHits p rv ≥ p.sell_at_least_count)
    (hreb : counter % p.rebalance_days ≠ 0) :
    (rotNext p counter bar st).books.records
      = st.books.records ++ [mkRecord 0 ep ed cl bar.date]
    ∧ (rotNext p counter bar st).entry = [none] := by
  have hcond : ¬(counter % p.rebalance_days = 0
      ∧ rocList bar.instrs ≠ []) := fun h => hreb h.1
  rw [rotNext, if_neg hcond]
  simp [hentry, hbar, scanInstr, rotSellStep, hsell, closePos]

/-- C3 witness: the concrete non-rebalance-bar exit. -/
theorem C3_witness :
    (⟨[some ((10 : ℚ), (2 : ℤ))], ⟨1, 0, [], 1⟩⟩ :
        EngineState).entry = [some (10, 2)]
      ∧ (⟨3, [⟨9, some (-1/10)⟩]⟩ : RotBar).instrs = [⟨9, some (-1/10)⟩]
      ∧ sellHits { defaultRotParams with rebalance_days := 2 } (-1/10)
          ≥ ({ defaultRotParams with rebalance_days := 2 } :
              RotParams).sell_at_least_count
      ∧ 3 % ({ defaultRotParams with rebalance_days := 2 } :
          RotParams).rebalance_days ≠ 0
      ∧ (rotNext { defaultRotParams with rebalance_days := 2 } 3
            ⟨3, [⟨9, some (-1/10)⟩]⟩
            ⟨[some (10, 2)], ⟨1, 0, [], 1⟩⟩).books.records
          = [] ++ [mkRecord 0 10 2 9 3]
      ∧ (rotNext { defaultRotParams with rebalance_days := 2 } 3
            ⟨3, [⟨9, some (-1/10)⟩]⟩
            ⟨[some (10, 2)], ⟨1, 0, [], 1⟩⟩).entry = [none] := by
  have hsell : sellHits { defaultRotParams with rebalance_days := 2 } (-1/10)
      ≥ ({ defaultRotParams with rebalance_days := 2 } :
          RotParams).sell_at_least_count := by
    norm_num [sellHits, defaultRotParams]
  have h := C3_exit_check_every_bar
    { defaultRotParams with rebalance_days := 2 } 3
    ⟨3, [⟨9, some (-1/10)⟩]⟩ ⟨[some (10, 2)], ⟨1, 0, [], 1⟩⟩
    9 (-1/10) 10 2 rfl rfl hsell (by decide)
  exact ⟨rfl, rfl, hsell, by decide, h.1, h.2⟩

/-! ### Tarmac pattern facts -/

theorem mul100_lt_iff (x c : ℚ) : x * 100 < c ↔ x < c / 100 := by
  constructor <;> intro h <;> linarith

theorem mul100_le_iff (x c : ℚ) : x * 100 ≤ c ↔ x ≤ c / 100 := by
  constructor <;> intro h <;> linarith

theorem mul100_pos_iff (x : ℚ) : 0 < x * 100 ↔ 0 < x := by
  constructor <;> intro h <;> linarith

theorem ite_false_eq_true_iff {c : Prop} [Decidable c] {x : Bool} :
    (if c then x else false) = true ↔ c ∧ x = true := by
  split <;> simp [*]

theorem dailyPct_eq_of (hist : List TBar) (off : ℕ) (cur prev : TBar)
    (hcur : hist.get? off = some cur) (hprev : hist.get? (off + 1) = some prev)
    (hlen : off + 2 ≤ hist.length) (hp : 0 < prev.close) :
    dailyPct hist off
      = some ((cur.close - prev.close) / prev.close * 100) := by
  rw [dailyPct, if_neg (by omega)]
  simp only [hcur, hprev]
  rw [if_neg (ne_of_gt hp)]

theorem tarmacConfirmOk_iff (hist : List TBar) (off : ℕ) (cur prev : TBar)
    (hcur : hist.get? off = some cur) (hprev : hist.get? (off + 1) = some prev)
    (hlen : off + 2 ≤ hist.length) (hp : 0 < prev.close) (ho : 0 < cur.op) :
    (tarmacConfirmOk defaultTarmacParams hist off = true
      ↔ tarmacConfirmSpec cur prev) := by
  have hd := dailyPct_eq_of hist off cur prev hcur hprev hlen hp
  rw [tarmacConfirmOk]
  simp only [hd, hcur, hprev, defaultTarmacParams]
  rw [if_pos (ne_of_gt ho)]
  simp only [Bool.and_eq_true, decide_eq_true_eq, mul100_lt_iff,
    mul100_le_iff, mul100_pos_iff, tarmacConfirmSpec]
  tauto

/-- C4 counterexample: a concrete 8-bar history in which all three
confirmation days have a same-day gain of exactly 5% — `dailyPct` at the
current bar is `some 5` — and the entry signal nevertheless fires, because
the code accepts `0.0 < pct <= confirm_max_pct`; this contradicts "a bar
whose gain equals exactly 5% does not satisfy the pattern". -/
theorem C4_counterexample :
    dailyPct [⟨124, 101871/800, 30⟩, ⟨118, 4851/40, 30⟩, ⟨113, 231/2, 30⟩,
        ⟨100, 110, 100⟩, ⟨100, 100, 25⟩, ⟨100, 100, 25⟩, ⟨100, 100, 25⟩,
        ⟨100, 100, 25⟩] 0 = some 5
    ∧ tarmacEntry defaultTarmacParams
        [⟨124, 101871/800, 30⟩, ⟨118, 4851/40, 30⟩, ⟨113, 231/2, 30⟩,
         ⟨100, 110, 100⟩, ⟨100, 100, 25⟩, ⟨100, 100, 25⟩, ⟨100, 100, 25⟩,
         ⟨100, 100, 25⟩] = true := by
  constructor
  · norm_num [dailyPct, List.get?]
  · norm_num [tarmacEntry, tarmacConfirmOk, dailyPct, volMa5At3,
      defaultTarmacParams, List.get?]

set_option maxHeartbeats 1600000 in
/-- C4 (amended): on any history with at least 8 bars (positive prices and
volumes where the code divides), the entry signal fires iff the surge day at
offset -3 shows a gain above 9.5%, close above open, and volume at least
twice its 5-bar average, and each of the three bars at offsets -2, -1, 0
independently has a gapped open above the prior close, close above open,
intraday body below 3%, and a same-day gain strictly greater than 0% and at
most 5% — the upper bound is inclusive, so a gain of exactly 5% satisfies
the pattern. -/
theorem C4_entry_iff (b0 b1 b2 b3 b4 b5 b6 b7 : TBar) (rest : List TBar)
    (h4 : 0 < b4.close) (h3 : 0 < b3.close) (h2 : 0 < b2.close)
    (h1 : 0 < b1.close) (o0 : 0 < b0.op) (o1 : 0 < b1.op) (o2 : 0 < b2.op)
    (hm : 0 < b3.volume + b4.volume + b5.volume + b6.volume + b7.volume) :
    (tarmacEntry defaultTarmacParams
        (b0 :: b1 :: b2 :: b3 :: b4 :: b5 :: b6 :: b7 :: rest) = true)
      ↔ ((b3.close - b4.close) / b4.close > 19/200
          ∧ b3.close > b3.op
          ∧ b3.volume ≥ 2 * ((b3.volume + b4.volume + b5.volume + b6.volume
              + b7.volume) / 5)
          ∧ tarmacConfirmSpec b2 b3 ∧ tarmacConfirmSpec b1 b2
          ∧ tarmacConfirmSpec b0 b1) := by
  have hlen8 : (8 : ℕ)
      ≤ (b0 :: b1 :: b2 :: b3 :: b4 :: b5 :: b6 :: b7 :: rest).length := by
    simp only [List.length_cons]
    omega
  have hc2 := tarmacConfirmOk_iff
    (b0 :: b1 :: b2 :: b3 :: b4 :: b5 :: b6 :: b7 :: rest) 2 b2 b3 rfl rfl
    (by omega) h3 o2
  have hc1 := tarmacConfirmOk_iff
    (b0 :: b1 :: b2 :: b3 :: b4 :: b5 :: b6 :: b7 :: rest) 1 b1 b2 rfl rfl
    (by omega) h2 o1
  have hc0 := tarmacConfirmOk_iff
    (b0 :: b1 :: b2 :: b3 :: b4 :: b5 :: b6 :: b7 :: rest) 0 b0 b1 rfl rfl
    (by omega) h1 o0
  have hd3 := dailyPct_eq_of
    (b0 :: b1 :: b2 :: b3 :: b4 :: b5 :: b6 :: b7 :: rest) 3 b3 b4 rfl rfl
    (by omega) h4
  have hvm : volMa5At3 (b0 :: b1 :: b2 :: b3 :: b4 :: b5 :: b6 :: b7 :: rest)
      = some ((b3.volume + b4.volume + b5.volume + b6.volume + b7.volume)
          / 5) := rfl
  have hg3 : (b0 :: b1 :: b2 :: b3 :: b4 :: b5 :: b6 :: b7 :: rest).get? 3
      = some b3 := rfl
  have hm5 : (0 : ℚ) < (b3.volume + b4.volume + b5.volume + b6.volume
      + b7.volume) / 5 := div_pos hm (by norm_num)
  rw [tarmacEntry, if_neg (by omega)]
  simp only [hd3, hvm, hg3]
  rw [if_neg (ne_of_gt hm5)]
  rw [ite_false_eq_true_iff]
  simp only [Bool.and_eq_true, decide_eq_true_eq, defaultTarmacParams,
    hc2, hc1, hc0]
  have i1 : ((b3.close - b4.close) / b4.close * 100 > 19/2)
      ↔ ((b3.close - b4.close) / b4.close > 19/200) := by
    constructor <;> intro h <;> linarith
  have i3 : (b3.volume
        / ((b3.volume + b4.volume + b5.volume + b6.volume + b7.volume) / 5)
        ≥ 2)
      ↔ (b3.volume ≥ 2 * ((b3.volume + b4.volume + b5.volume + b6.volume
          + b7.volume) / 5)) := by
    rw [ge_iff_le, le_div_iff₀ hm5, ge_iff_le]
  rw [i1, i3]
  tauto

/-- C4 witness: the characterization applied to the concrete 8-bar history
whose confirmation-day gains are exactly 5%; the spec-side conjunction holds
and the entry signal fires. -/
theorem C4_witness :
    (0 : ℚ) < (⟨100, 100, 25⟩ : TBar).close
    ∧ tarmacEntry defaultTarmacParams
        [⟨124, 101871/800, 30⟩, ⟨118, 4851/40, 30⟩, ⟨113, 231/2, 30⟩,
         ⟨100, 110, 100⟩, ⟨100, 100, 25⟩, ⟨100, 100, 25⟩, ⟨100, 100, 25⟩,
         ⟨100, 100, 25⟩] = true := by
  refine ⟨by norm_num, ?_⟩
  refine (C4_entry_iff ⟨124, 101871/800, 30⟩ ⟨118, 4851/40, 30⟩
    ⟨113, 231/2, 30⟩ ⟨100, 110, 100⟩ ⟨100, 100, 25⟩ ⟨100, 100, 25⟩
    ⟨100, 100, 25⟩ ⟨100, 100, 25⟩ [] (by norm_num) (by norm_num)
    (by norm_num) (by norm_num) (by norm_num) (by norm_num) (by norm_num)
    (by norm_num)).mpr ?_
  norm_num [tarmacConfirmSpec]
